import Mathlib

/-!
Shallow embedding of the bit-banged protocol drivers of `bitbang-hal`
(`src/serial.rs`, `src/spi.rs`, `src/i2s.rs`).

Pins and the periodic timer are modelled as ideal: every pin operation is
recorded as an event in an explicit trace, and a timer wait is the event
`wait` (one tick).  Machine integers (`u8`/`u16`/`u32`) are modelled as
`Nat`, with an explicit `% 256` wherever the Rust code can wrap an `u8`
left shift.  Input pins are modelled as functions from the sample index
(for SPI) or the tick index (for serial) to the sampled level.
-/

namespace BitbangHal

/-! ## Serial driver (`src/serial.rs`) -/

namespace Serial

/-- A pin/timer event of the serial driver: `setTx b` drives the TX line to
level `b` (`true` = high), `wait` blocks until the next timer tick. -/
inductive Event
  | setTx : Bool → Event
  | wait : Event
deriving DecidableEq, Repr

/-- The data-bit loop of `Serial::try_write` (`serial.rs` lines 47–55):
for each of `n` bits, drive TX to `data_out & 1`, shift `data_out` right
by one, and wait one tick. -/
def writeLoop : Nat → Nat → List Event
  | 0, _ => []
  | n + 1, dataOut =>
    Event.setTx (dataOut &&& 1 == 1) :: Event.wait :: writeLoop n (dataOut >>> 1)

/-- Embeds `Serial::try_write` (`serial.rs` lines 43–59): start bit (TX low, one
tick), eight data bits LSB first, stop bit (TX high, one tick). -/
def tryWrite (byte : Nat) : List Event :=
  Event.setTx false :: Event.wait :: (writeLoop 8 byte ++ [Event.setTx true, Event.wait])

/-- Interpret a trace as the TX line level during each tick interval:
each `wait` records the level the line held for that tick.  `cur` is the
line level entering the trace (idle high before a frame). -/
def lineLevels : List Event → Bool → List Bool
  | [], _ => []
  | Event.setTx b :: rest, _ => lineLevels rest b
  | Event.wait :: rest, cur => cur :: lineLevels rest cur

/-- The data-bit loop of `Serial::try_read` (`serial.rs` lines 79–85):
for each bit, shift the accumulator left (an `u8`, hence `% 256`), OR in
the sampled line level, then wait a tick.  `t` is the current tick index
of the sampling cadence. -/
def readLoop : Nat → Nat → Nat → (Nat → Bool) → Nat
  | 0, _, acc, _ => acc
  | n + 1, t, acc, line =>
    readLoop n (t + 1) ((((acc <<< 1) % 256) ||| (if line t then 1 else 0))) line

/-- Embeds `Serial::try_read` (`serial.rs` lines 74–89) sampled at the claim's
tick cadence: the start bit is detected at tick 0, one `timer.wait`
skips to tick 1, then the eight data bits are sampled at ticks 1..8. -/
def tryRead (line : Nat → Bool) : Nat :=
  readLoop 8 1 0 line

/-- Write `byte`, interpret the trace as a tick-indexed line (idle high
before and after the frame), and read it back with `tryRead`. -/
def roundTrip (byte : Nat) : Nat :=
  tryRead (fun t => (lineLevels (tryWrite byte) true).getD t true)

/-- The 8-bit bit-reversal of `b`: bit `k` of `b` becomes bit `7 - k`. -/
def bitRev8 (b : Nat) : Nat :=
  (List.range 8).foldl (fun acc k => acc * 2 + ((b >>> k) &&& 1)) 0

end Serial

/-! ## SPI driver (`src/spi.rs`) -/

namespace Spi

/-- Embeds `embedded_hal::spi::Polarity`: the clock's idle level. -/
inductive Polarity
  | IdleLow
  | IdleHigh
deriving DecidableEq, Repr

/-- Embeds `embedded_hal::spi::Phase`: which clock transition samples data. -/
inductive Phase
  | CaptureOnFirstTransition
  | CaptureOnSecondTransition
deriving DecidableEq, Repr

/-- Embeds `embedded_hal::spi::Mode`: polarity × phase. -/
structure Mode where
  polarity : Polarity
  phase : Phase
deriving DecidableEq, Repr

/-- Embeds `embedded_hal::spi::MODE_0`. -/
def MODE_0 : Mode := ⟨Polarity.IdleLow, Phase.CaptureOnFirstTransition⟩

/-- Embeds `embedded_hal::spi::MODE_1`. -/
def MODE_1 : Mode := ⟨Polarity.IdleLow, Phase.CaptureOnSecondTransition⟩

/-- Embeds `embedded_hal::spi::MODE_2`. -/
def MODE_2 : Mode := ⟨Polarity.IdleHigh, Phase.CaptureOnFirstTransition⟩

/-- Embeds `embedded_hal::spi::MODE_3`. -/
def MODE_3 : Mode := ⟨Polarity.IdleHigh, Phase.CaptureOnSecondTransition⟩

/-- Embeds `spi::BitOrder` (`spi.rs` lines 14–18). -/
inductive BitOrder
  | MSBFirst
  | LSBFirst
deriving DecidableEq, Repr

/-- Embeds `spi::Error` (`spi.rs` lines 8–12); the pin-bus variant never arises
for the ideal pins of this model. -/
inductive Error
  | NoData
deriving DecidableEq, Repr

/-- A pin/timer event of the SPI driver.  `sample b` is `read_bit`
observing MISO at level `b`. -/
inductive Event
  | setMosi : Bool → Event
  | setSck : Bool → Event
  | sample : Bool → Event
  | wait : Event
deriving DecidableEq, Repr

/-- The transmit bit selected for loop index `bit` in `try_send`
(`spi.rs` lines 105–108). -/
def outBit (order : BitOrder) (byte bit : Nat) : Nat :=
  match order with
  | BitOrder.MSBFirst => (byte >>> (7 - bit)) &&& 1
  | BitOrder.LSBFirst => (byte >>> bit) &&& 1

/-- Embeds `SPI::read_bit` (`spi.rs` lines 76–84): left-shift the `u8` shift
register (wrapping, hence `% 256`) and OR in the sampled MISO level. -/
def readBit (readVal : Option Nat) (misoHigh : Bool) : Option Nat :=
  if misoHigh then some (((readVal.getD 0 <<< 1) % 256) ||| 1)
  else some ((readVal.getD 0 <<< 1) % 256)

/-- One bit-period of `try_send` after MOSI is driven (`spi.rs` lines
116–145): per mode, the fixed wait/clock-edge/sample order, threading the
shift register through `read_bit`. -/
def sendBit (m : Mode) (misoHigh : Bool) (rv : Option Nat) :
    List Event × Option Nat :=
  match m.polarity, m.phase with
  | Polarity.IdleLow, Phase.CaptureOnFirstTransition =>
    ([Event.wait, Event.setSck true, Event.sample misoHigh, Event.wait,
      Event.setSck false], readBit rv misoHigh)
  | Polarity.IdleLow, Phase.CaptureOnSecondTransition =>
    ([Event.setSck true, Event.wait, Event.sample misoHigh, Event.setSck false,
      Event.wait], readBit rv misoHigh)
  | Polarity.IdleHigh, Phase.CaptureOnFirstTransition =>
    ([Event.wait, Event.setSck false, Event.sample misoHigh, Event.wait,
      Event.setSck true], readBit rv misoHigh)
  | Polarity.IdleHigh, Phase.CaptureOnSecondTransition =>
    ([Event.setSck false, Event.wait, Event.sample misoHigh, Event.setSck true,
      Event.wait], readBit rv misoHigh)

/-- The `for bit in 0..8` loop of `try_send` (`spi.rs` lines 104–146),
counting down `n` remaining bits with current loop index `i`; `miso`
gives the MISO level at each loop index. -/
def sendBits (m : Mode) (order : BitOrder) (miso : Nat → Bool) (byte : Nat) :
    Nat → Nat → Option Nat → List Event × Option Nat
  | 0, _, rv => ([], rv)
  | n + 1, i, rv =>
    let step := sendBit m (miso i) rv
    let rest := sendBits m order miso byte n (i + 1) step.2
    (Event.setMosi (outBit order byte i == 1) :: step.1 ++ rest.1, rest.2)

/-- Embeds `SPI::try_send` (`spi.rs` lines 103–149): returns the pin-event trace
and the shift-register state after the 8 bits. -/
def trySend (m : Mode) (order : BitOrder) (miso : Nat → Bool) (byte : Nat)
    (rv : Option Nat) : List Event × Option Nat :=
  sendBits m order miso byte 8 0 rv

/-- Embeds `SPI::try_read` (`spi.rs` lines 96–101). -/
def tryRead (rv : Option Nat) : Except Error Nat :=
  match rv with
  | some v => Except.ok v
  | none => Except.error Error.NoData

/-- The clock-pin initialization of `SPI::new` (`spi.rs` lines 63–67):
the only pin action of construction. -/
def newTrace (m : Mode) : List Event :=
  match m.polarity with
  | Polarity.IdleLow => [Event.setSck false]
  | Polarity.IdleHigh => [Event.setSck true]

/-- The byte assembled from the eight sampled MISO levels, first sample
in the most significant bit. -/
def recvByte (miso : Nat → Bool) : Nat :=
  (List.range 8).foldl (fun acc k => acc * 2 + (if miso k then 1 else 0)) 0

/-- The sequence of MOSI levels driven during a send, extracted from the
trace. -/
def mosiLevels (tr : List Event) : List Bool :=
  tr.filterMap fun e =>
    match e with
    | Event.setMosi b => some b
    | _ => none

end Spi

/-! ## I2S driver (`src/i2s.rs`) -/

namespace I2s

/-- Embeds `i2s::Mode` (`i2s.rs` lines 27–33). -/
inductive Mode
  | I2s
  | LeftJustified
deriving DecidableEq, Repr

/-- A pin/timer event of the I2S driver: word-select, data and clock pin
writes, and a timer tick. -/
inductive Event
  | setWs : Bool → Event
  | setSd : Bool → Event
  | setSck : Bool → Event
  | wait : Event
deriving DecidableEq, Repr

/-- Embeds `OutBitStream` (`i2s.rs` lines 202–217): per-word cursor holding the
word, the number of bits already emitted, and the word's bit width. -/
structure OutBitStream where
  word : Nat
  bit_offset : Nat
  bit_count : Nat
deriving DecidableEq, Repr

/-- Embeds `OutBitStream::new` (`i2s.rs` lines 210–216). -/
def OutBitStream.new (word bitCount : Nat) : OutBitStream :=
  ⟨word, 0, bitCount⟩

/-- Embeds `OutBitStream::next` (`i2s.rs` lines 226–234): `none` when exhausted,
else advance the cursor and emit bit `bit_count - bit_offset` of the
word (MSB first). -/
def OutBitStream.next (s : OutBitStream) : Option Bool × OutBitStream :=
  if s.bit_offset == s.bit_count then (none, s)
  else
    let off := s.bit_offset + 1
    (some (((s.word >>> (s.bit_count - off)) &&& 1) != 0),
      { s with bit_offset := off })

/-- Drain an `OutBitStream` through repeated `next` calls (`fuel` bounds
the iteration; `toList` supplies enough fuel for the whole word). -/
def OutBitStream.collect : Nat → OutBitStream → List Bool
  | 0, _ => []
  | fuel + 1, s =>
    match s.next with
    | (none, _) => []
    | (some b, s') => b :: OutBitStream.collect fuel s'

/-- The full bit sequence emitted by an `OutBitStream` before it returns
`None`. -/
def OutBitStream.toList (s : OutBitStream) : List Bool :=
  OutBitStream.collect s.bit_count s

/-- Embeds `I2s::try_write_bit` (`i2s.rs` lines 173–184): drive SD to the bit,
wait, clock high, wait, clock low. -/
def tryWriteBit (b : Bool) : List Event :=
  [Event.setSd b, Event.wait, Event.setSck true, Event.wait, Event.setSck false]

/-- A `for _ in 0..n { match stream.next() { None => return Ok(()), Some(bit)
=> try_write_bit(bit) } }` loop (`i2s.rs` lines 141–146 and 158–163):
`none` marks the early `return Ok(())`. -/
def loopStop : Nat → OutBitStream → List Event × Option OutBitStream
  | 0, s => ([], some s)
  | n + 1, s =>
    match s.next with
    | (none, _) => ([], none)
    | (some b, s') =>
      match loopStop n s' with
      | (tr, res) => (tryWriteBit b ++ tr, res)

/-- A `for _ in 0..n { try_write_bit(stream.next().unwrap_or(false)) }`
loop (`i2s.rs` lines 150–152 and 166–168). -/
def loopPad : Nat → OutBitStream → List Event × OutBitStream
  | 0, s => ([], s)
  | n + 1, s =>
    match s.next with
    | (o, s') =>
      match loopPad n s' with
      | (tr, sEnd) => (tryWriteBit (o.getD false) ++ tr, sEnd)

/-- Embeds `I2s::try_write_words` (`i2s.rs` lines 121–172): the pin-event trace of
one stereo frame in the given mode and bit width. -/
def tryWriteWords (mode : Mode) (leftWord rightWord bitCount : Nat) : List Event :=
  let left := OutBitStream.new leftWord bitCount
  let right := OutBitStream.new rightWord bitCount
  match mode with
  | Mode.I2s =>
    Event.setWs false ::
      (match loopStop (bitCount - 1) left with
       | (tr, none) => tr
       | (tr, some left') =>
         let rightRun := loopPad (bitCount - 1) right
         tr ++ Event.setWs true :: tryWriteBit (left'.next.1.getD false) ++
           rightRun.1 ++ Event.setWs false :: tryWriteBit (rightRun.2.next.1.getD false))
  | Mode.LeftJustified =>
    Event.setWs false ::
      (match loopStop bitCount left with
       | (tr, none) => tr
       | (tr, some _) =>
         tr ++ Event.setWs true :: (loopPad bitCount right).1)

/-- Embeds `i2s::Write::try_write` for slices (`i2s.rs` lines 68–81): zip the two
slices and transfer each pair as one frame; excess elements of the longer
slice never enter the loop. -/
def tryWriteSlices (mode : Mode) (bitCount : Nat) (leftWords rightWords : List Nat) :
    List Event :=
  (leftWords.zip rightWords).flatMap fun p => tryWriteWords mode p.1 p.2 bitCount

/-- The number of stereo frames the slice-based `try_write` transfers:
one per element of the zip of the two slices. -/
def framesWritten (leftWords rightWords : List Nat) : Nat :=
  (leftWords.zip rightWords).length

/-- The k-th (0-indexed) MSB-first bit of an `N`-bit word, as the spec
words it: right-shift by `N - (k+1)` and mask bit 0. -/
def specBit (w N k : Nat) : Bool :=
  ((w >>> (N - (k + 1))) &&& 1) != 0

/-- The sequence of word-select levels driven during a trace. -/
def wsLevels (tr : List Event) : List Bool :=
  tr.filterMap fun e =>
    match e with
    | Event.setWs b => some b
    | _ => none

end I2s

end BitbangHal

open BitbangHal

/-- C6: `Serial::try_write` performs exactly: TX low (start bit) and one
tick; then the 8 data bits LSB first, each driven and followed by one
tick (the k-th data bit is `(byte >> k) & 1`); then TX high (stop bit)
and one tick — exactly 10 timer ticks per byte. -/
theorem serial_write_framing (b : Nat) :
    Serial.tryWrite b =
      [Serial.Event.setTx false, Serial.Event.wait] ++
        ((List.range 8).flatMap fun k =>
          [Serial.Event.setTx ((b >>> k) &&& 1 == 1), Serial.Event.wait]) ++
        [Serial.Event.setTx true, Serial.Event.wait] ∧
    (Serial.tryWrite b).count Serial.Event.wait = 10 := by
  constructor
  · rfl
  · simp [Serial.tryWrite, Serial.writeLoop, List.count_cons, List.count_append]

/-- C1 (refuted — code bug): sampling the TX bit sequence produced by
`Serial::try_write b` with the `Serial::try_read` logic at the same tick
cadence does NOT return `b`: the writer emits LSB first while the reader
accumulates MSB first (`data_in <<= 1`), so the round trip returns the
8-bit bit-reversal of `b` for every byte; e.g. `roundTrip 1 = 128`. -/
theorem serial_roundtrip_bitreversed :
    (∀ b : Nat, b < 256 → Serial.roundTrip b = Serial.bitRev8 b) ∧
    Serial.roundTrip 1 = 128 ∧ Serial.bitRev8 1 ≠ 1 := by
  refine ⟨?_, by decide, by decide⟩
  set_option maxRecDepth 10000 in decide

/-- Witness for `serial_roundtrip_bitreversed` at the concrete byte 1. -/
theorem serial_roundtrip_bitreversed_witness :
    Serial.roundTrip 1 = Serial.bitRev8 1 :=
  serial_roundtrip_bitreversed.1 1 (by decide)

/-- The `u8` left-shift-and-OR of `SPI::read_bit`, rewritten as plain
modular arithmetic. -/
theorem Spi.readBit_arith (rv : Option Nat) (b : Bool) :
    Spi.readBit rv b = some ((2 * rv.getD 0 + (if b then 1 else 0)) % 256) := by
  have hor : ((rv.getD 0 <<< 1) % 256) ||| (if b then 1 else 0) =
      ((rv.getD 0 <<< 1) % 256) + (if b then 1 else 0) := by
    have hx2 : 2 ^ 1 * (((rv.getD 0 <<< 1) % 256) / 2) = (rv.getD 0 <<< 1) % 256 := by
      omega
    calc ((rv.getD 0 <<< 1) % 256) ||| (if b then 1 else 0)
        = 2 ^ 1 * (((rv.getD 0 <<< 1) % 256) / 2) ||| (if b then 1 else 0) := by rw [hx2]
      _ = 2 ^ 1 * (((rv.getD 0 <<< 1) % 256) / 2) + (if b then 1 else 0) :=
          (Nat.mul_add_lt_is_or (by split <;> omega) _).symm
      _ = ((rv.getD 0 <<< 1) % 256) + (if b then 1 else 0) := by rw [hx2]
  cases b <;> simp_all [Spi.readBit, Nat.shiftLeft_eq] <;> omega

/-- C3: `SPI::try_send` performs, for each of the 8 bits, the MOSI drive
followed by exactly the fixed per-mode wait/clock/sample order of the
claim (mode 0: wait, clock high, sample, wait, clock low; mode 1: clock
high, wait, sample, clock low, wait; mode 2: wait, clock low, sample,
wait, clock high; mode 3: clock low, wait, sample, clock high, wait),
and each bit consumes exactly two timer ticks (16 waits per byte). -/
theorem spi_send_mode_sequencing (order : Spi.BitOrder) (miso : Nat → Bool)
    (b : Nat) (rv : Option Nat) :
    ((Spi.trySend Spi.MODE_0 order miso b rv).1 =
      ((List.range 8).flatMap fun i =>
        [Spi.Event.setMosi (Spi.outBit order b i == 1), Spi.Event.wait,
         Spi.Event.setSck true, Spi.Event.sample (miso i), Spi.Event.wait,
         Spi.Event.setSck false]) ∧
     (Spi.trySend Spi.MODE_1 order miso b rv).1 =
      ((List.range 8).flatMap fun i =>
        [Spi.Event.setMosi (Spi.outBit order b i == 1), Spi.Event.setSck true,
         Spi.Event.wait, Spi.Event.sample (miso i), Spi.Event.setSck false,
         Spi.Event.wait]) ∧
     (Spi.trySend Spi.MODE_2 order miso b rv).1 =
      ((List.range 8).flatMap fun i =>
        [Spi.Event.setMosi (Spi.outBit order b i == 1), Spi.Event.wait,
         Spi.Event.setSck false, Spi.Event.sample (miso i), Spi.Event.wait,
         Spi.Event.setSck true]) ∧
     (Spi.trySend Spi.MODE_3 order miso b rv).1 =
      ((List.range 8).flatMap fun i =>
        [Spi.Event.setMosi (Spi.outBit order b i == 1), Spi.Event.setSck false,
         Spi.Event.wait, Spi.Event.sample (miso i), Spi.Event.setSck true,
         Spi.Event.wait])) ∧
    ∀ m : Spi.Mode, (Spi.trySend m order miso b rv).1.count Spi.Event.wait = 16 := by
  refine ⟨⟨rfl, rfl, rfl, rfl⟩, ?_⟩
  rintro ⟨p, ph⟩
  cases p <;> cases ph <;> rfl


/-- C5: the SPI shift register: `try_read` fails with `NoData` before any
send has completed; a completed `try_send` always leaves the register
holding the byte assembled from the eight sampled MISO levels (first
sample in the MSB), independent of the previous register contents, and
`try_read` then returns exactly that byte; in particular in mode 0 with
MISO held high, after `send 0xFF` a read returns `Ok 0xFF`. -/
theorem spi_read_shift_register :
    Spi.tryRead none = Except.error Spi.Error.NoData ∧
    (∀ (m : Spi.Mode) (order : Spi.BitOrder) (miso : Nat → Bool) (b : Nat)
        (rv : Option Nat),
      (Spi.trySend m order miso b rv).2 = some (Spi.recvByte miso) ∧
      Spi.tryRead (Spi.trySend m order miso b rv).2 =
        Except.ok (Spi.recvByte miso)) ∧
    Spi.tryRead
        (Spi.trySend Spi.MODE_0 Spi.BitOrder.MSBFirst (fun _ => true) 255 none).2 =
      Except.ok 255 := by
  have key : ∀ (m : Spi.Mode) (order : Spi.BitOrder) (miso : Nat → Bool) (b : Nat)
      (rv : Option Nat),
      (Spi.trySend m order miso b rv).2 = some (Spi.recvByte miso) := by
    intro m order miso b rv
    obtain ⟨p, ph⟩ := m
    cases p <;> cases ph <;>
    · simp only [Spi.trySend, Spi.sendBits, Spi.sendBit, Spi.readBit_arith,
        Option.getD_some, Spi.recvByte, List.range_succ, List.range_zero,
        List.foldl_append, List.foldl_cons, List.foldl_nil]
      congr 1
      generalize hc0 : (if miso 0 then (1:Nat) else 0) = c0
      have hb0 : c0 ≤ 1 := by rw [← hc0]; split <;> omega
      generalize hc1 : (if miso 1 then (1:Nat) else 0) = c1
      have hb1 : c1 ≤ 1 := by rw [← hc1]; split <;> omega
      generalize hc2 : (if miso 2 then (1:Nat) else 0) = c2
      have hb2 : c2 ≤ 1 := by rw [← hc2]; split <;> omega
      generalize hc3 : (if miso 3 then (1:Nat) else 0) = c3
      have hb3 : c3 ≤ 1 := by rw [← hc3]; split <;> omega
      generalize hc4 : (if miso 4 then (1:Nat) else 0) = c4
      have hb4 : c4 ≤ 1 := by rw [← hc4]; split <;> omega
      generalize hc5 : (if miso 5 then (1:Nat) else 0) = c5
      have hb5 : c5 ≤ 1 := by rw [← hc5]; split <;> omega
      generalize hc6 : (if miso 6 then (1:Nat) else 0) = c6
      have hb6 : c6 ≤ 1 := by rw [← hc6]; split <;> omega
      generalize hc7 : (if miso 7 then (1:Nat) else 0) = c7
      have hb7 : c7 ≤ 1 := by rw [← hc7]; split <;> omega
      omega
  refine ⟨rfl, fun m order miso b rv => ⟨key m order miso b rv, ?_⟩, ?_⟩
  · rw [key m order miso b rv]; rfl
  · rw [key Spi.MODE_0 Spi.BitOrder.MSBFirst (fun _ => true) 255 none]
    rfl

/-- C8: for every byte, the k-th bit transmitted under `MSBFirst` equals
the `(7-k)`-th bit transmitted under `LSBFirst` (`(b >> (7-k)) & 1`), and
the MOSI level sequences of the two bit orders are exact reversals of one
another, in every mode. -/
theorem spi_bit_order_reversal (b : Nat) :
    (∀ (m : Spi.Mode) (miso : Nat → Bool) (rv : Option Nat),
      Spi.mosiLevels (Spi.trySend m Spi.BitOrder.MSBFirst miso b rv).1 =
        (Spi.mosiLevels (Spi.trySend m Spi.BitOrder.LSBFirst miso b rv).1).reverse) ∧
    ∀ k, k < 8 →
      Spi.outBit Spi.BitOrder.MSBFirst b k = Spi.outBit Spi.BitOrder.LSBFirst b (7 - k) := by
  constructor
  · intro m miso rv
    obtain ⟨p, ph⟩ := m
    cases p <;> cases ph <;> rfl
  · intro k _
    rfl

/-- Witness for `spi_bit_order_reversal` at byte `0xA5`, bit index 2. -/
theorem spi_bit_order_reversal_witness :
    Spi.outBit Spi.BitOrder.MSBFirst 0xA5 2 = Spi.outBit Spi.BitOrder.LSBFirst 0xA5 5 :=
  (spi_bit_order_reversal 0xA5).2 2 (by decide)

/-- C9: `SPI::new` drives the clock pin to the idle level of the
configured polarity (IdleLow → low, IdleHigh → high), so two
constructions with the same polarity produce the same initial clock
level. -/
theorem spi_new_idle_level :
    (∀ m₁ m₂ : Spi.Mode, m₁.polarity = m₂.polarity →
      Spi.newTrace m₁ = Spi.newTrace m₂) ∧
    (∀ ph, Spi.newTrace ⟨Spi.Polarity.IdleLow, ph⟩ = [Spi.Event.setSck false]) ∧
    (∀ ph, Spi.newTrace ⟨Spi.Polarity.IdleHigh, ph⟩ = [Spi.Event.setSck true]) := by
  refine ⟨?_, fun _ => rfl, fun _ => rfl⟩
  intro m₁ m₂ h
  obtain ⟨p₁, ph₁⟩ := m₁
  obtain ⟨p₂, ph₂⟩ := m₂
  cases p₁ <;> cases p₂ <;> simp_all [Spi.newTrace]

/-- Witness for `spi_new_idle_level`: modes 0 and 1 share `IdleLow`. -/
theorem spi_new_idle_level_witness :
    Spi.newTrace Spi.MODE_0 = Spi.newTrace Spi.MODE_1 :=
  spi_new_idle_level.1 Spi.MODE_0 Spi.MODE_1 rfl


/-- Zipping truncates to the shorter list: the zip equals the zip of the
two prefixes of the common (minimum) length. -/
theorem list_zip_take_min {α β : Type} :
    ∀ (ls : List α) (rs : List β),
      ls.zip rs =
        (ls.take (min ls.length rs.length)).zip (rs.take (min ls.length rs.length))
  | [], _ => by simp
  | _ :: _, [] => by simp
  | a :: ls, b :: rs => by
    simp [Nat.succ_min_succ, list_zip_take_min ls rs]

set_option maxRecDepth 8000 in
/-- C2: in StandardI2S mode, `try_write_words` emits exactly: WS low; the
first `N-1` MSB-first bits of the left word; WS high; the left word's
final bit; the first `N-1` bits of the right word; WS low; the right
word's final bit (`N ∈ {8, 16, 32}`).  Consequently the WS pin is driven
exactly three times — low, then high (after the first `N-1` left bits),
then low (after the first `N-1` right bits). -/
theorem i2s_standard_framing (l r N : Nat) (hN : N = 8 ∨ N = 16 ∨ N = 32) :
    I2s.tryWriteWords I2s.Mode.I2s l r N =
      I2s.Event.setWs false ::
        (((List.range (N - 1)).flatMap fun k => I2s.tryWriteBit (I2s.specBit l N k)) ++
          I2s.Event.setWs true :: I2s.tryWriteBit (I2s.specBit l N (N - 1)) ++
          ((List.range (N - 1)).flatMap fun k => I2s.tryWriteBit (I2s.specBit r N k)) ++
          I2s.Event.setWs false :: I2s.tryWriteBit (I2s.specBit r N (N - 1))) ∧
    I2s.wsLevels (I2s.tryWriteWords I2s.Mode.I2s l r N) = [false, true, false] := by
  rcases hN with h | h | h <;> subst h <;> exact ⟨rfl, rfl⟩

/-- Witness for `i2s_standard_framing` at the spec's example frame
(`0xAB`, `0xCD`, 8-bit). -/
theorem i2s_standard_framing_witness :
    I2s.wsLevels (I2s.tryWriteWords I2s.Mode.I2s 0xAB 0xCD 8) = [false, true, false] :=
  (i2s_standard_framing 0xAB 0xCD 8 (Or.inl rfl)).2

set_option maxRecDepth 8000 in
/-- C7: in LeftJustified mode, `try_write_words` emits exactly: WS low,
all `N` bits of the left word, WS high, all `N` bits of the right word
(`N ∈ {8, 16, 32}`); WS is driven exactly twice (low then high), so no
WS edge falls mid-word. -/
theorem i2s_left_justified_framing (l r N : Nat) (hN : N = 8 ∨ N = 16 ∨ N = 32) :
    I2s.tryWriteWords I2s.Mode.LeftJustified l r N =
      I2s.Event.setWs false ::
        (((List.range N).flatMap fun k => I2s.tryWriteBit (I2s.specBit l N k)) ++
          I2s.Event.setWs true ::
            ((List.range N).flatMap fun k => I2s.tryWriteBit (I2s.specBit r N k))) ∧
    I2s.wsLevels (I2s.tryWriteWords I2s.Mode.LeftJustified l r N) = [false, true] := by
  rcases hN with h | h | h <;> subst h <;> exact ⟨rfl, rfl⟩

/-- Witness for `i2s_left_justified_framing` at the spec's example frame
(`0xAB`, `0xCD`, 8-bit). -/
theorem i2s_left_justified_framing_witness :
    I2s.wsLevels (I2s.tryWriteWords I2s.Mode.LeftJustified 0xAB 0xCD 8) = [false, true] :=
  (i2s_left_justified_framing 0xAB 0xCD 8 (Or.inl rfl)).2

set_option maxRecDepth 8000 in
/-- C4: the bit sequence emitted by `OutBitStream` for an `N`-bit word
(`N ∈ {8, 16, 32}`) has exactly `N` elements, its k-th (0-indexed)
element is `(w >> (N - (k+1))) & 1` (MSB first), and a zero-width stream
emits the empty sequence. -/
theorem i2s_outbitstream_msb_first (w N : Nat) (hN : N = 8 ∨ N = 16 ∨ N = 32) :
    (I2s.OutBitStream.toList (I2s.OutBitStream.new w N)).length = N ∧
    I2s.OutBitStream.toList (I2s.OutBitStream.new w N) =
      (List.range N).map (I2s.specBit w N) ∧
    I2s.OutBitStream.toList (I2s.OutBitStream.new w 0) = [] := by
  rcases hN with h | h | h <;> subst h <;> exact ⟨rfl, rfl, rfl⟩

/-- Witness for `i2s_outbitstream_msb_first` at the source's own test
word `0xAB`, 8 bits. -/
theorem i2s_outbitstream_msb_first_witness :
    I2s.OutBitStream.toList (I2s.OutBitStream.new 0xAB 8) =
      (List.range 8).map (I2s.specBit 0xAB 8) :=
  (i2s_outbitstream_msb_first 0xAB 8 (Or.inl rfl)).2.1

/-- C10: the slice-based I2S `try_write` iterates over the zip of the two
slices, so with unequal lengths it transfers exactly
`min (len left) (len right)` frames, the excess words of the longer
slice are dropped (the trace equals the trace of the truncated slices),
and no error arises from the mismatch (the trace function is total). -/
theorem i2s_slice_write_truncates (mode : I2s.Mode) (bitCount : Nat)
    (ls rs : List Nat) :
    I2s.framesWritten ls rs = min ls.length rs.length ∧
    I2s.tryWriteSlices mode bitCount ls rs =
      I2s.tryWriteSlices mode bitCount
        (ls.take (min ls.length rs.length)) (rs.take (min ls.length rs.length)) := by
  constructor
  · simp [I2s.framesWritten]
  · unfold I2s.tryWriteSlices
    rw [← list_zip_take_min ls rs]
